import Mathlib

/-!
Verification of the ED-Highwayman routing engine (src/main.rs) against its
design specification.

The development is a shallow embedding of the Rust source:

* The binary point-cloud loader (`load_store_from_bytes`) is embedded as a
  computable parser over `List Nat` byte streams.  An `f32` coordinate is
  represented by its 32-bit little-endian word: `f32::from_le_bytes` and the
  byte-level encoding are mutually inverse bit-for-bit, so for loading and
  round-trip questions the word-level model is exact.  UTF-8 validation
  (Rust's `String::from_utf8`) is embedded by an explicit RFC-3629 validator.

* The routing core (`sq_dist`, `find_bridge_general`, `greedy_fast_route`)
  is embedded over the real numbers (the usual idealization of `f32`
  arithmetic).  The kd-tree radius query (`kiddo`'s `within`, which returns
  the points of one category inside the closed ball, sorted by squared
  distance) is embedded as a filter over all entity ids followed by an
  insertion sort on squared distance.  The search loop is embedded as a
  fuel-indexed step function together with a proved termination measure, and
  the Rust function itself as the loop run with sufficient fuel.  The state
  carries two ghost fields (`trace`, `legs`) recording the committed
  positions and the committed per-bridge `leg_base` values; they influence
  nothing and merely make the loop's history available to theorems.
-/

namespace Highwayman

/-- Star categories, from the `StarKind` enum of the source
(0 = Unknown, 1 = General, 2 = Neutron). -/
inductive StarKind where
  | Unknown
  | General
  | Neutron
deriving DecidableEq, Repr

/-! ## Byte-level store loader -/

/-- Decoding of the category byte, from the `match star[0]` in
`load_store_from_bytes`: 1 is General, 2 is Neutron, anything else Unknown. -/
def decodeKind (b : Nat) : StarKind :=
  if b = 1 then .General else if b = 2 then .Neutron else .Unknown

/-- An entity record as read from the binary stream: the three coordinate
words (bit patterns of the `f32` values), the decoded category and the raw
UTF-8 bytes of the name. -/
structure RawEntity where
  x : Nat
  y : Nat
  z : Nat
  kind : StarKind
  name : List Nat
deriving DecidableEq, Repr

/-- The in-memory store of the source (`InMemoryStore`): three parallel
sequences of coordinates, names and categories.  The derived name-to-index
map of the source is a pure function of `names` and is not needed by any
claim, so it is not materialized here. -/
structure InMemoryStore where
  coords : List (Nat × Nat × Nat)
  names : List (List Nat)
  main_stars : List StarKind
deriving DecidableEq, Repr

/-- A sequential byte-stream parser: returns the parsed value and the
remaining bytes, or `none` on failure (Rust `Result`). -/
def Reader (α : Type) : Type := List Nat → Option (α × List Nat)

/-- Sequencing of parsers, mirroring the sequence of `read_exact` calls
followed by `?` in the source. -/
def pBind {α β : Type} (p : Reader α) (q : α → Reader β) : Reader β :=
  fun bs => (p bs).bind fun x => q x.1 x.2

/-- A parser that consumes nothing and returns a value. -/
def pRet {α : Type} (a : α) : Reader α := fun bs => some (a, bs)

/-- Little-endian 4-byte encoding of a 32-bit word. -/
def le4 (n : Nat) : List Nat :=
  [n % 256, n / 256 % 256, n / 65536 % 256, n / 16777216 % 256]

/-- Little-endian recomposition of 4 bytes (`u32::from_le_bytes`). -/
def decodeLE4 (a b c d : Nat) : Nat := a + 256 * b + 65536 * c + 16777216 * d

/-- Reading 4 bytes and decoding a little-endian `u32`
(`read_exact(&mut buf4)` + `u32::from_le_bytes`); fails if fewer than 4
bytes remain.  Reading an `f32` coordinate is the same read, the value being
kept as its bit word. -/
def readU32 : Reader Nat
  | a :: b :: c :: d :: rest => some (decodeLE4 a b c d, rest)
  | _ => none

/-- Reading one byte (the category byte read); fails on an empty stream. -/
def readByte : Reader Nat
  | a :: rest => some (a, rest)
  | _ => none

/-- Reading exactly `n` bytes (the name-bytes read); fails when fewer than
`n` bytes remain, which is Rust's `read_exact` running past the buffer. -/
def readChunk (n : Nat) : Reader (List Nat) :=
  fun bs => if n ≤ bs.length then some (bs.take n, bs.drop n) else none

/-- Continuation-byte test for UTF-8 (0x80 to 0xBF). -/
def isCont (b : Nat) : Prop := 0x80 ≤ b ∧ b ≤ 0xBF

instance (b : Nat) : Decidable (isCont b) := by unfold isCont; infer_instance

/-- RFC 3629 UTF-8 validity of a byte sequence, exactly the check performed
by Rust's `String::from_utf8`: no overlong forms, no surrogates, nothing
above U+10FFFF. -/
def utf8Valid : List Nat → Bool
  | [] => true
  | b :: rest =>
    if b ≤ 0x7F then utf8Valid rest
    else if 0xC2 ≤ b ∧ b ≤ 0xDF then
      match rest with
      | c1 :: r => isCont c1 && utf8Valid r
      | [] => false
    else if b = 0xE0 then
      match rest with
      | c1 :: c2 :: r => (0xA0 ≤ c1 ∧ c1 ≤ 0xBF : Bool) && isCont c2 && utf8Valid r
      | _ => false
    else if (0xE1 ≤ b ∧ b ≤ 0xEC) ∨ b = 0xEE ∨ b = 0xEF then
      match rest with
      | c1 :: c2 :: r => isCont c1 && isCont c2 && utf8Valid r
      | _ => false
    else if b = 0xED then
      match rest with
      | c1 :: c2 :: r => (0x80 ≤ c1 ∧ c1 ≤ 0x9F : Bool) && isCont c2 && utf8Valid r
      | _ => false
    else if b = 0xF0 then
      match rest with
      | c1 :: c2 :: c3 :: r =>
        (0x90 ≤ c1 ∧ c1 ≤ 0xBF : Bool) && isCont c2 && isCont c3 && utf8Valid r
      | _ => false
    else if 0xF1 ≤ b ∧ b ≤ 0xF3 then
      match rest with
      | c1 :: c2 :: c3 :: r => isCont c1 && isCont c2 && isCont c3 && utf8Valid r
      | _ => false
    else if b = 0xF4 then
      match rest with
      | c1 :: c2 :: c3 :: r =>
        (0x80 ≤ c1 ∧ c1 ≤ 0x8F : Bool) && isCont c2 && isCont c3 && utf8Valid r
      | _ => false
    else false

/-- One entity record of the binary format, in the exact read order of the
source: x, y, z words, category byte, name length, name bytes, then the
UTF-8 validation performed by `String::from_utf8`. -/
def readEntity : Reader RawEntity :=
  pBind readU32 fun x =>
  pBind readU32 fun y =>
  pBind readU32 fun z =>
  pBind readByte fun c =>
  pBind readU32 fun len =>
  pBind (readChunk len) fun nm =>
  fun bs => if utf8Valid nm then some (⟨x, y, z, decodeKind c, nm⟩, bs) else none

/-- Reading `count` consecutive entity records (the `for _ in 0..count`
loop of the source). -/
def readEntities : Nat → Reader (List RawEntity)
  | 0 => pRet []
  | n + 1 =>
    pBind readEntity fun e =>
    pBind (readEntities n) fun es =>
    pRet (e :: es)

/-- The loader `load_store_from_bytes`: version word (ignored), count word,
`count` records, then the three parallel sequences are built.  Trailing
bytes after the last record are ignored, as in the source.  A failure of
any read or of UTF-8 validation yields `none` and no store at all. -/
def load_store_from_bytes (bs : List Nat) : Option InMemoryStore :=
  ((pBind readU32 fun _version =>
    pBind readU32 fun count =>
    readEntities count) bs).map fun r =>
      ⟨r.1.map fun e => (e.x, e.y, e.z),
       r.1.map RawEntity.name,
       r.1.map RawEntity.kind⟩

/-! ## The documented binary encoding -/

/-- Canonical category byte of the documented format
(0 = Unknown, 1 = General, 2 = Neutron). -/
def encodeKind : StarKind → Nat
  | .Unknown => 0
  | .General => 1
  | .Neutron => 2

/-- The documented per-entity layout: x, y, z little-endian words, category
byte, name length word, name bytes. -/
def encodeEntity (e : RawEntity) : List Nat :=
  le4 e.x ++ le4 e.y ++ le4 e.z ++ [encodeKind e.kind] ++ le4 e.name.length ++ e.name

/-- The documented store layout: version word, count word, then the
records. -/
def encodeStore (version : Nat) (es : List RawEntity) : List Nat :=
  le4 version ++ le4 es.length ++ (es.map encodeEntity).flatten

/-- Well-formedness of an entity for the 32-bit format: coordinate words
and name length fit in 32 bits and the name is valid UTF-8. -/
def WFEntity (e : RawEntity) : Prop :=
  e.x < 4294967296 ∧ e.y < 4294967296 ∧ e.z < 4294967296 ∧
    e.name.length < 4294967296 ∧ utf8Valid e.name = true

instance (e : RawEntity) : Decidable (WFEntity e) := by
  unfold WFEntity; infer_instance

/-! ## Parser consumption lemmas -/

/-- A parser `p` consumes exactly `c` producing `a`: on `c` followed by any
continuation it succeeds leaving exactly the continuation, and on every
strict prefix of `c` it fails. -/
def Consumes {α : Type} (p : Reader α) (c : List Nat) (a : α) : Prop :=
  (∀ t, p (c ++ t) = some (a, t)) ∧ ∀ k, k < c.length → p (c.take k) = none

theorem le4_length (n : Nat) : (le4 n).length = 4 := rfl

theorem consumes_readU32 {n : Nat} (h : n < 4294967296) :
    Consumes readU32 (le4 n) n := by
  constructor
  · intro t
    show some (decodeLE4 (n % 256) (n / 256 % 256) (n / 65536 % 256)
      (n / 16777216 % 256), t) = some (n, t)
    have hd : decodeLE4 (n % 256) (n / 256 % 256) (n / 65536 % 256)
        (n / 16777216 % 256) = n := by
      unfold decodeLE4; omega
    rw [hd]
  · intro k hk
    rw [le4_length] at hk
    interval_cases k <;> rfl

theorem consumes_readByte (b : Nat) : Consumes readByte [b] b := by
  constructor
  · intro t; rfl
  · intro k hk
    simp only [List.length_singleton] at hk
    interval_cases k
    rfl

theorem consumes_readChunk {n : Nat} {c : List Nat} (h : c.length = n) :
    Consumes (readChunk n) c c := by
  constructor
  · intro t
    unfold readChunk
    rw [if_pos (by rw [List.length_append]; omega)]
    subst h
    rw [List.take_left, List.drop_left]
  · intro k hk
    unfold readChunk
    rw [if_neg]
    rw [List.length_take]
    omega

theorem consumes_pRet {α : Type} (a : α) : Consumes (pRet a) [] a := by
  constructor
  · intro t; rfl
  · intro k hk; simp at hk

theorem pBind_some {α β : Type} {p : Reader α} {q : α → Reader β} {bs rest : List Nat}
    {a : α} (h : p bs = some (a, rest)) : pBind p q bs = q a rest := by
  simp [pBind, h]

theorem pBind_none {α β : Type} {p : Reader α} {q : α → Reader β} {bs : List Nat}
    (h : p bs = none) : pBind p q bs = none := by
  simp [pBind, h]

theorem consumes_bind {α β : Type} {p : Reader α} {q : α → Reader β}
    {c d : List Nat} {a : α} {b : β}
    (hp : Consumes p c a) (hq : Consumes (q a) d b) :
    Consumes (pBind p q) (c ++ d) b := by
  constructor
  · intro t
    rw [List.append_assoc]
    rw [pBind_some (hp.1 (d ++ t))]
    exact hq.1 t
  · intro k hk
    rw [List.length_append] at hk
    by_cases hkc : k < c.length
    · have ht : (c ++ d).take k = c.take k := by
        rw [List.take_append_eq_append_take]
        have : k - c.length = 0 := by omega
        rw [this]
        simp
      rw [ht, pBind_none (hp.2 k hkc)]
    · push_neg at hkc
      obtain ⟨m, rfl⟩ : ∃ m, k = c.length + m := ⟨k - c.length, by omega⟩
      have hm : m < d.length := by omega
      have ht : (c ++ d).take (c.length + m) = c ++ d.take m := by
        rw [List.take_append_eq_append_take]
        have h1 : c.take (c.length + m) = c := List.take_of_length_le (by omega)
        have h2 : c.length + m - c.length = m := by omega
        rw [h1, h2]
      rw [ht, pBind_some (hp.1 (d.take m))]
      exact hq.2 m hm

theorem decodeKind_encodeKind (k : StarKind) : decodeKind (encodeKind k) = k := by
  cases k <;> rfl

theorem consumes_readEntity {e : RawEntity} (he : WFEntity e) :
    Consumes readEntity (encodeEntity e) e := by
  obtain ⟨hx, hy, hz, hlen, hutf⟩ := he
  have hguard : Consumes
      (fun bs => if utf8Valid e.name then
        some ((⟨e.x, e.y, e.z, decodeKind (encodeKind e.kind), e.name⟩ : RawEntity), bs)
        else none) [] e := by
    constructor
    · intro t
      simp only [List.nil_append, hutf, if_true]
      rw [decodeKind_encodeKind]
    · intro k hk; simp at hk
  have hchunk : Consumes
      (pBind (readChunk e.name.length) fun nm => fun bs =>
        if utf8Valid nm then
          some ((⟨e.x, e.y, e.z, decodeKind (encodeKind e.kind), nm⟩ : RawEntity), bs)
          else none)
      (e.name ++ []) e :=
    consumes_bind (consumes_readChunk rfl) hguard
  rw [List.append_nil] at hchunk
  have h5 : Consumes readEntity
      (le4 e.x ++ (le4 e.y ++ (le4 e.z ++ ([encodeKind e.kind] ++
        (le4 e.name.length ++ e.name))))) e :=
    consumes_bind (consumes_readU32 hx) <|
      consumes_bind (consumes_readU32 hy) <|
      consumes_bind (consumes_readU32 hz) <|
      consumes_bind (consumes_readByte (encodeKind e.kind)) <|
      consumes_bind (consumes_readU32 hlen) hchunk
  simpa only [encodeEntity, List.append_assoc] using h5

theorem consumes_readEntities {es : List RawEntity} (h : ∀ e ∈ es, WFEntity e) :
    Consumes (readEntities es.length) ((es.map encodeEntity).flatten) es := by
  induction es with
  | nil =>
    constructor
    · intro t; rfl
    · intro k hk; simp at hk
  | cons e es ih =>
    have h1 : Consumes readEntity (encodeEntity e) e :=
      consumes_readEntity (h e (List.mem_cons_self e es))
    have h2 : Consumes (readEntities es.length) ((es.map encodeEntity).flatten) es :=
      ih fun x hx => h x (List.mem_cons_of_mem e hx)
    have h3 : Consumes
        (pBind (readEntities es.length) fun es2 => pRet (e :: es2))
        ((es.map encodeEntity).flatten ++ []) (e :: es) :=
      consumes_bind h2 (consumes_pRet (e :: es))
    rw [List.append_nil] at h3
    have h4 : Consumes
        (pBind readEntity fun e2 =>
          pBind (readEntities es.length) fun es2 => pRet (e2 :: es2))
        (encodeEntity e ++ (es.map encodeEntity).flatten) (e :: es) :=
      consumes_bind h1 h3
    simpa using h4

/-- The header-plus-records parser underlying `load_store_from_bytes`. -/
def storeReader : Reader (List RawEntity) :=
  pBind readU32 fun _version =>
  pBind readU32 fun count =>
  readEntities count

theorem load_eq_storeReader (bs : List Nat) :
    load_store_from_bytes bs =
      (storeReader bs).map fun r =>
        (⟨r.1.map fun e => (e.x, e.y, e.z),
          r.1.map RawEntity.name,
          r.1.map RawEntity.kind⟩ : InMemoryStore) := rfl

theorem consumes_storeReader {version : Nat} {es : List RawEntity}
    (hv : version < 4294967296) (hc : es.length < 4294967296)
    (hwf : ∀ e ∈ es, WFEntity e) :
    Consumes storeReader (encodeStore version es) es := by
  have h : Consumes storeReader
      (le4 version ++ (le4 es.length ++ (es.map encodeEntity).flatten)) es :=
    consumes_bind (consumes_readU32 hv)
      (consumes_bind (consumes_readU32 hc) (consumes_readEntities hwf))
  simpa only [encodeStore, List.append_assoc] using h

theorem readEntity_run {x y z c len : Nat} {bs : List Nat}
    (hx : x < 4294967296) (hy : y < 4294967296) (hz : z < 4294967296)
    (hlen : len < 4294967296) :
    readEntity (le4 x ++ (le4 y ++ (le4 z ++ ([c] ++ (le4 len ++ bs))))) =
      (pBind (readChunk len) fun nm => fun bs2 =>
        if utf8Valid nm then
          some ((⟨x, y, z, decodeKind c, nm⟩ : RawEntity), bs2) else none) bs := by
  show pBind readU32 _ _ = _
  rw [pBind_some ((consumes_readU32 hx).1 (le4 y ++ (le4 z ++ ([c] ++ (le4 len ++ bs)))))]
  show pBind readU32 _ _ = _
  rw [pBind_some ((consumes_readU32 hy).1 (le4 z ++ ([c] ++ (le4 len ++ bs))))]
  show pBind readU32 _ _ = _
  rw [pBind_some ((consumes_readU32 hz).1 ([c] ++ (le4 len ++ bs)))]
  show pBind readByte _ _ = _
  rw [pBind_some ((consumes_readByte c).1 (le4 len ++ bs))]
  show pBind readU32 _ _ = _
  rw [pBind_some ((consumes_readU32 hlen).1 bs)]

theorem readEntity_overrun {x y z c len : Nat} {tail : List Nat}
    (hx : x < 4294967296) (hy : y < 4294967296) (hz : z < 4294967296)
    (hlen : len < 4294967296) (htail : tail.length < len) :
    readEntity (le4 x ++ (le4 y ++ (le4 z ++ ([c] ++ (le4 len ++ tail))))) = none := by
  rw [readEntity_run hx hy hz hlen]
  apply pBind_none
  unfold readChunk
  rw [if_neg]
  omega

theorem readEntity_badName {x y z c : Nat} {nm rest : List Nat}
    (hx : x < 4294967296) (hy : y < 4294967296) (hz : z < 4294967296)
    (hlen : nm.length < 4294967296) (hbad : utf8Valid nm = false) :
    readEntity (le4 x ++ (le4 y ++ (le4 z ++ ([c] ++ (le4 nm.length ++ (nm ++ rest)))))) =
      none := by
  rw [readEntity_run hx hy hz hlen]
  rw [pBind_some ((consumes_readChunk (c := nm) rfl).1 rest)]
  simp [hbad]

theorem readEntities_fail {es : List RawEntity} {R : List Nat}
    (hwf : ∀ e ∈ es, WFEntity e) (hR : readEntity R = none) :
    readEntities (es.length + 1) ((es.map encodeEntity).flatten ++ R) = none := by
  induction es with
  | nil =>
    simp only [List.map_nil, List.flatten_nil, List.nil_append, List.length_nil]
    exact pBind_none hR
  | cons e es ih =>
    have h1 := consumes_readEntity (hwf e (List.mem_cons_self e es))
    have hs : ((e :: es).map encodeEntity).flatten ++ R =
        encodeEntity e ++ ((es.map encodeEntity).flatten ++ R) := by
      simp [List.append_assoc]
    show readEntities (es.length + 1 + 1) _ = none
    rw [hs]
    show pBind readEntity _ _ = none
    rw [pBind_some (h1.1 ((es.map encodeEntity).flatten ++ R))]
    exact pBind_none (ih fun x hx => hwf x (List.mem_cons_of_mem e hx))

/-- C8: deserializing the documented binary layout reproduces exactly the
encoded entities: coordinates (as `f32` bit words), categories and names, in
original order.  The hypotheses say the encoded fields fit the 32-bit
format and the names are valid UTF-8. -/
theorem loader_round_trip {version : Nat} {es : List RawEntity}
    (hv : version < 4294967296) (hc : es.length < 4294967296)
    (hwf : ∀ e ∈ es, WFEntity e) :
    load_store_from_bytes (encodeStore version es) =
      some ⟨es.map fun e => (e.x, e.y, e.z),
            es.map RawEntity.name, es.map RawEntity.kind⟩ := by
  have h := (consumes_storeReader hv hc hwf).1 []
  rw [List.append_nil] at h
  rw [load_eq_storeReader, h]
  rfl

theorem loader_round_trip_witness :
    load_store_from_bytes (encodeStore 7 [⟨1, 2, 3, .Neutron, [65]⟩]) =
      some ⟨[(1, 2, 3)], [[65]], [.Neutron]⟩ :=
  loader_round_trip (by norm_num) (by norm_num) (by decide)

/-- C9: the loader fails, returning no store at all, on a truncated byte
sequence (any strict prefix of a well-formed encoding), on a declared name
length that runs past the buffer, and on name bytes that are not valid
UTF-8. -/
theorem loader_rejects_malformed :
    (∀ (version : Nat) (es : List RawEntity) (k : Nat),
      version < 4294967296 → es.length < 4294967296 → (∀ e ∈ es, WFEntity e) →
      k < (encodeStore version es).length →
      load_store_from_bytes ((encodeStore version es).take k) = none) ∧
    (∀ (version : Nat) (es : List RawEntity) (x y z c len : Nat) (tail : List Nat),
      version < 4294967296 → es.length + 1 < 4294967296 → (∀ e ∈ es, WFEntity e) →
      x < 4294967296 → y < 4294967296 → z < 4294967296 → len < 4294967296 →
      tail.length < len →
      load_store_from_bytes
        (le4 version ++ le4 (es.length + 1) ++ (es.map encodeEntity).flatten ++
          le4 x ++ le4 y ++ le4 z ++ [c] ++ le4 len ++ tail) = none) ∧
    (∀ (version : Nat) (es : List RawEntity) (x y z c : Nat) (nm rest : List Nat),
      version < 4294967296 → es.length + 1 < 4294967296 → (∀ e ∈ es, WFEntity e) →
      x < 4294967296 → y < 4294967296 → z < 4294967296 → nm.length < 4294967296 →
      utf8Valid nm = false →
      load_store_from_bytes
        (le4 version ++ le4 (es.length + 1) ++ (es.map encodeEntity).flatten ++
          le4 x ++ le4 y ++ le4 z ++ [c] ++ le4 nm.length ++ nm ++ rest) = none) := by
  refine ⟨?_, ?_, ?_⟩
  · intro version es k hv hc hwf hk
    rw [load_eq_storeReader, (consumes_storeReader hv hc hwf).2 k hk]
    rfl
  · intro version es x y z c len tail hv hc hwf hx hy hz hlen htail
    have hs : le4 version ++ le4 (es.length + 1) ++ (es.map encodeEntity).flatten ++
        le4 x ++ le4 y ++ le4 z ++ [c] ++ le4 len ++ tail =
        le4 version ++ (le4 (es.length + 1) ++ ((es.map encodeEntity).flatten ++
          (le4 x ++ (le4 y ++ (le4 z ++ ([c] ++ (le4 len ++ tail))))))) := by
      simp [List.append_assoc]
    rw [hs, load_eq_storeReader]
    show (pBind readU32 _ _).map _ = none
    rw [pBind_some ((consumes_readU32 hv).1 _)]
    show (pBind readU32 _ _).map _ = none
    rw [pBind_some ((consumes_readU32 hc).1 _)]
    rw [readEntities_fail hwf (readEntity_overrun hx hy hz hlen htail)]
    rfl
  · intro version es x y z c nm rest hv hc hwf hx hy hz hlen hbad
    have hs : le4 version ++ le4 (es.length + 1) ++ (es.map encodeEntity).flatten ++
        le4 x ++ le4 y ++ le4 z ++ [c] ++ le4 nm.length ++ nm ++ rest =
        le4 version ++ (le4 (es.length + 1) ++ ((es.map encodeEntity).flatten ++
          (le4 x ++ (le4 y ++ (le4 z ++ ([c] ++ (le4 nm.length ++ (nm ++ rest)))))))) := by
      simp [List.append_assoc]
    rw [hs, load_eq_storeReader]
    show (pBind readU32 _ _).map _ = none
    rw [pBind_some ((consumes_readU32 hv).1 _)]
    show (pBind readU32 _ _).map _ = none
    rw [pBind_some ((consumes_readU32 hc).1 _)]
    rw [readEntities_fail hwf (readEntity_badName hx hy hz hlen hbad)]
    rfl

theorem loader_rejects_malformed_witness :
    load_store_from_bytes ((encodeStore 0 []).take 5) = none ∧
    load_store_from_bytes
      (le4 0 ++ le4 1 ++ ([].map encodeEntity).flatten ++
        le4 0 ++ le4 0 ++ le4 0 ++ [0] ++ le4 3 ++ []) = none ∧
    load_store_from_bytes
      (le4 0 ++ le4 1 ++ ([].map encodeEntity).flatten ++
        le4 0 ++ le4 0 ++ le4 0 ++ [0] ++ le4 1 ++ [255] ++ []) = none :=
  ⟨loader_rejects_malformed.1 0 [] 5 (by norm_num) (by norm_num) (by decide) (by decide),
   loader_rejects_malformed.2.1 0 [] 0 0 0 0 3 [] (by norm_num) (by norm_num) (by decide)
     (by norm_num) (by norm_num) (by norm_num) (by norm_num) (by decide),
   loader_rejects_malformed.2.2 0 [] 0 0 0 0 [255] [] (by norm_num) (by norm_num)
     (by decide) (by norm_num) (by norm_num) (by norm_num) (by decide) (by decide)⟩

/-- C10: the loader never fails on the category byte.  Every record with an
arbitrary category byte value is accepted, with 1 mapped to General, 2 to
Neutron, and every other value mapped to Unknown. -/
theorem category_byte_total :
    (∀ (x y z c : Nat) (nm rest : List Nat),
      x < 4294967296 → y < 4294967296 → z < 4294967296 →
      nm.length < 4294967296 → utf8Valid nm = true →
      readEntity (le4 x ++ le4 y ++ le4 z ++ [c] ++ le4 nm.length ++ nm ++ rest) =
        some (⟨x, y, z, decodeKind c, nm⟩, rest)) ∧
    decodeKind 1 = .General ∧ decodeKind 2 = .Neutron ∧
    ∀ b, b ≠ 1 → b ≠ 2 → decodeKind b = .Unknown := by
  refine ⟨?_, rfl, rfl, ?_⟩
  · intro x y z c nm rest hx hy hz hlen hok
    have hs : le4 x ++ le4 y ++ le4 z ++ [c] ++ le4 nm.length ++ nm ++ rest =
        le4 x ++ (le4 y ++ (le4 z ++ ([c] ++ (le4 nm.length ++ (nm ++ rest))))) := by
      simp [List.append_assoc]
    rw [hs, readEntity_run hx hy hz hlen]
    rw [pBind_some ((consumes_readChunk (c := nm) rfl).1 rest)]
    simp [hok]
  · intro b h1 h2
    unfold decodeKind
    rw [if_neg h1, if_neg h2]

theorem category_byte_total_witness :
    readEntity (le4 9 ++ le4 8 ++ le4 7 ++ [7] ++ le4 1 ++ [97] ++ []) =
      some (⟨9, 8, 7, decodeKind 7, [97]⟩, []) ∧
    decodeKind 7 = .Unknown :=
  ⟨category_byte_total.1 9 8 7 7 [97] [] (by norm_num) (by norm_num) (by norm_num)
     (by decide) (by decide),
   category_byte_total.2.2.2 7 (by norm_num) (by norm_num)⟩

/-! ## Routing core over the reals

The router's `f32` arithmetic is idealized as real arithmetic.  Comparisons
on reals are classically decidable, so the definitions below are
noncomputable; they mirror the source statement by statement. -/

/-- A point of the 3-D space. -/
abbrev Point : Type := ℝ × ℝ × ℝ

noncomputable section RoutingDefs
open Classical

/-- The fixed constant `GENERAL_BOOST = 6.0` of the source. -/
def GENERAL_BOOST : ℝ := 6

/-- Squared Euclidean distance, the source's `sq_dist`. -/
def sq_dist (a b : Point) : ℝ :=
  (a.1 - b.1) * (a.1 - b.1) + (a.2.1 - b.2.1) * (a.2.1 - b.2.1) +
    (a.2.2 - b.2.2) * (a.2.2 - b.2.2)

/-- Plain Euclidean distance (the source's `.sqrt()` of `sq_dist`). -/
def distP (a b : Point) : ℝ := Real.sqrt (sq_dist a b)

/-- A routing session's immutable data after loading the store: `n`
entities, with each id's coordinate and category. -/
structure World where
  n : ℕ
  coords : ℕ → Point
  kinds : ℕ → StarKind

/-- The kd-tree radius query: `build_kdtree_of store kind` followed by
kiddo's `within(center, r2)`.  It returns exactly the ids of category
`kind` whose squared distance to `center` is at most `r2`, sorted by
ascending squared distance (kiddo returns sorted results; exact distance
ties are ordered by id here, kiddo leaving their order unspecified). -/
def kd_within (w : World) (kind : StarKind) (center : Point) (r2 : ℝ) : List ℕ :=
  List.insertionSort
    (fun a b => sq_dist (w.coords a) center ≤ sq_dist (w.coords b) center)
    ((List.range w.n).filter fun i =>
      decide (w.kinds i = kind ∧ sq_dist (w.coords i) center ≤ r2))

/-- The `leg_base` of a candidate bridge `g` for the hop `src -> dst`:
`max(distance(src,g) / GENERAL_BOOST, distance(g,dst))`. -/
def legBase (w : World) (src dst g : ℕ) : ℝ :=
  max (distP (w.coords src) (w.coords g) / GENERAL_BOOST)
      (distP (w.coords g) (w.coords dst))

/-- The candidate scan of `find_bridge_general`: skip candidates beyond the
boosted reach of the source, skip candidates whose leg base exceeds the
limit by more than 1e-6, and replace the running best only when a
candidate's leg base is more than 1e-6 below the incumbent. -/
def bridgeFold (w : World) (src : ℕ) (L : ℝ) (dst : ℕ) :
    List ℕ → Option (ℝ × ℕ) → Option (ℝ × ℕ)
  | [], best => best
  | g :: rest, best =>
    if sq_dist (w.coords src) (w.coords g) > (L * GENERAL_BOOST) ^ 2 then
      bridgeFold w src L dst rest best
    else if legBase w src dst g > L + 1 / 1000000 then
      bridgeFold w src L dst rest best
    else
      match best with
      | some (best_base, best_idx) =>
        if legBase w src dst g + 1 / 1000000 < best_base then
          bridgeFold w src L dst rest (some (legBase w src dst g, g))
        else
          bridgeFold w src L dst rest (some (best_base, best_idx))
      | none => bridgeFold w src L dst rest (some (legBase w src dst g, g))

/-- The source's `find_bridge_general`: query the general-star index around
the destination with squared radius `base_limit^2`, scan the candidates,
and return `(best id, best leg base)` if any candidate survives. -/
def find_bridge_general (w : World) (src dst : ℕ) (base_limit : ℝ) :
    Option (ℕ × ℝ) :=
  match bridgeFold w src base_limit dst
      (kd_within w .General (w.coords dst) (base_limit ^ 2)) none with
  | some (base, idx) => some (idx, base)
  | none => none

/-- Distance of entity `idx` to the goal (the `goal_dist` closure). -/
def goalDist (w : World) (goal idx : ℕ) : ℝ :=
  distP (w.coords idx) (w.coords goal)

/-- One iteration's candidate list: neutron stars within the generous
radius `limit * (GENERAL_BOOST + 1)` of the current position, other than
the current position itself, whose distance to goal improves on the
current one by more than 1e-3; sorted ascending by distance to goal (the
source's sort on `dist_goal`). -/
def candidateList (w : World) (goal cur : ℕ) (limit : ℝ) : List ℕ :=
  List.insertionSort (fun a b => goalDist w goal a ≤ goalDist w goal b)
    ((kd_within w .Neutron (w.coords cur) ((limit * (GENERAL_BOOST + 1)) ^ 2)).filter
      fun i => decide (i ≠ cur ∧ goalDist w goal i + 1 / 1000 < goalDist w goal cur))

/-- The inner candidate loop: take the first candidate in order for which
`find_bridge_general` succeeds, together with its bridge id and leg base. -/
def tryCandidates (w : World) (cur : ℕ) (limit : ℝ) :
    List ℕ → Option (ℕ × ℕ × ℝ)
  | [] => none
  | cand :: rest =>
    match find_bridge_general w cur cand limit with
    | some (g, leg) => some (cand, g, leg)
    | none => tryCandidates w cur limit rest

/-- The search-local state of `greedy_fast_route`.  `legs` and `trace` are
ghost history fields with no influence on the search: the `leg_base` of
each committed bridge, and the sequence of committed positions starting
with the start id. -/
structure RouteState where
  current : ℕ
  generals : List ℕ
  requiredBase : ℝ
  limit : ℝ
  steps : ℕ
  noProgress : ℕ
  legs : List ℝ
  trace : List ℕ

/-- A successful search result: bridge ids in hop order, the required base
range, the reported jump count, plus the ghost history fields. -/
structure RouteResult where
  generals : List ℕ
  requiredBase : ℝ
  jumps : ℕ
  legs : List ℝ
  trace : List ℕ

/-- Outcome of one loop iteration. -/
inductive StepOut where
  | done (r : RouteResult)
  | fail
  | cont (s : RouteState)

/-- One iteration of the `while current != goal_idx` loop of
`greedy_fast_route`: succeed when the goal is reached; otherwise commit the
first candidate hop with a bridge; otherwise raise the limit by 1.0 and
abort once the raised limit exceeds 1000.0. -/
def routeStep (w : World) (goal : ℕ) (s : RouteState) : StepOut :=
  if s.current = goal then
    .done ⟨s.generals, s.requiredBase, 2 * s.steps, s.legs, s.trace⟩
  else
    match tryCandidates w s.current s.limit (candidateList w goal s.current s.limit) with
    | some (cand, g, leg) =>
      .cont { current := cand,
              generals := s.generals ++ [g],
              requiredBase := max s.requiredBase leg,
              limit := s.limit,
              steps := s.steps + 1,
              noProgress := 0,
              legs := s.legs ++ [leg],
              trace := s.trace ++ [cand] }
    | none =>
      if s.limit + 1 > 1000 then .fail
      else .cont { s with limit := s.limit + 1, noProgress := s.noProgress + 1 }

/-- The loop, indexed by fuel: `none` means the fuel ran out (impossible
with the fuel used by `greedy_fast_route`, see the termination theorem),
`some none` is the ceiling abort, `some (some r)` a successful route. -/
def routeLoop (w : World) (goal : ℕ) : ℕ → RouteState → Option (Option RouteResult)
  | 0, _ => none
  | fuel + 1, s =>
    match routeStep w goal s with
    | .done r => some (some r)
    | .fail => some none
    | .cont s2 => routeLoop w goal fuel s2

/-- Initial search state. -/
def initState (start : ℕ) (base_limit : ℝ) : RouteState :=
  ⟨start, [], 0, base_limit, 0, 0, [], [start]⟩

/-- Number of entities strictly closer to the goal than the current
position: a bound on the moves the loop can still commit. -/
def movesLeft (w : World) (goal : ℕ) (s : RouteState) : ℕ :=
  ((Finset.range w.n).filter fun i =>
    goalDist w goal i < goalDist w goal s.current).card

/-- Number of stalls the loop can still take before the raised limit
passes the 1000 ly ceiling. -/
def stallsLeft (s : RouteState) : ℕ := ⌈(1001 : ℝ) - s.limit⌉₊

/-- Termination measure: strictly decreases at every `cont` step. -/
def routeMeasure (w : World) (goal : ℕ) (s : RouteState) : ℕ :=
  movesLeft w goal s + stallsLeft s

/-- The source's `greedy_fast_route`: the loop run with provably
sufficient fuel, so that the outcome is exactly the Rust function's
(`some` on success, `none` on the ceiling abort). -/
def greedy_fast_route (w : World) (start goal : ℕ) (base_limit : ℝ) :
    Option RouteResult :=
  (routeLoop w goal (routeMeasure w goal (initState start base_limit) + 1)
    (initState start base_limit)).join

end RoutingDefs

/-! ## Bridge finder lemmas -/

/-- Survival of a scanned candidate through the two explicit filters of
`find_bridge_general`: within boosted reach of the source, and leg base
within tolerance of the limit. -/
def Survives (w : World) (src dst : ℕ) (L : ℝ) (g : ℕ) : Prop :=
  sq_dist (w.coords src) (w.coords g) ≤ (L * GENERAL_BOOST) ^ 2 ∧
    legBase w src dst g ≤ L + 1 / 1000000

noncomputable section BridgeLemmas
open Classical

/-- The surviving candidates of one `find_bridge_general` call, in scan
order. -/
def bridgeSurvivors (w : World) (src dst : ℕ) (L : ℝ) : List ℕ :=
  (kd_within w .General (w.coords dst) (L ^ 2)).filter fun g =>
    decide (Survives w src dst L g)

/-- One step of the candidate scan, as a function of survival. -/
def scanUpdate (w : World) (src : ℕ) (L : ℝ) (dst : ℕ) (g : ℕ)
    (best : Option (ℝ × ℕ)) : Option (ℝ × ℕ) :=
  if Survives w src dst L g then
    match best with
    | some (best_base, best_idx) =>
      if legBase w src dst g + 1 / 1000000 < best_base then
        some (legBase w src dst g, g)
      else some (best_base, best_idx)
    | none => some (legBase w src dst g, g)
  else best

end BridgeLemmas

theorem bridgeFold_cons_eq (w : World) (src : ℕ) (L : ℝ) (dst g : ℕ)
    (rest : List ℕ) (best : Option (ℝ × ℕ)) :
    bridgeFold w src L dst (g :: rest) best =
      if sq_dist (w.coords src) (w.coords g) > (L * GENERAL_BOOST) ^ 2 then
        bridgeFold w src L dst rest best
      else if legBase w src dst g > L + 1 / 1000000 then
        bridgeFold w src L dst rest best
      else
        match best with
        | some (best_base, best_idx) =>
          if legBase w src dst g + 1 / 1000000 < best_base then
            bridgeFold w src L dst rest (some (legBase w src dst g, g))
          else bridgeFold w src L dst rest (some (best_base, best_idx))
        | none => bridgeFold w src L dst rest (some (legBase w src dst g, g)) := rfl

theorem scanUpdate_skip (w : World) (src : ℕ) (L : ℝ) (dst x : ℕ)
    (best : Option (ℝ × ℕ)) (hs : ¬ Survives w src dst L x) :
    scanUpdate w src L dst x best = best := by
  unfold scanUpdate
  rw [if_neg hs]

theorem scanUpdate_none (w : World) (src : ℕ) (L : ℝ) (dst x : ℕ)
    (hs : Survives w src dst L x) :
    scanUpdate w src L dst x none = some (legBase w src dst x, x) := by
  unfold scanUpdate
  rw [if_pos hs]

theorem scanUpdate_some (w : World) (src : ℕ) (L : ℝ) (dst x : ℕ)
    (bb : ℝ) (bi : ℕ) (hs : Survives w src dst L x) :
    scanUpdate w src L dst x (some (bb, bi)) =
      if legBase w src dst x + 1 / 1000000 < bb then some (legBase w src dst x, x)
      else some (bb, bi) := by
  unfold scanUpdate
  rw [if_pos hs]

theorem bridgeFold_cons (w : World) (src : ℕ) (L : ℝ) (dst g : ℕ)
    (rest : List ℕ) (best : Option (ℝ × ℕ)) :
    bridgeFold w src L dst (g :: rest) best =
      bridgeFold w src L dst rest (scanUpdate w src L dst g best) := by
  rw [bridgeFold_cons_eq]
  by_cases h1 : sq_dist (w.coords src) (w.coords g) > (L * GENERAL_BOOST) ^ 2
  · rw [if_pos h1, scanUpdate_skip w src L dst g best]
    intro hs
    exact absurd hs.1 (not_le.mpr h1)
  · rw [if_neg h1]
    by_cases h2 : legBase w src dst g > L + 1 / 1000000
    · rw [if_pos h2, scanUpdate_skip w src L dst g best]
      intro hs
      exact absurd hs.2 (not_le.mpr h2)
    · rw [if_neg h2]
      have hs : Survives w src dst L g := ⟨not_lt.mp h1, not_lt.mp h2⟩
      cases best with
      | none => rw [scanUpdate_none w src L dst g hs]
      | some p =>
        obtain ⟨bb, bi⟩ := p
        rw [scanUpdate_some w src L dst g bb bi hs]
        show (if legBase w src dst g + 1 / 1000000 < bb then
            bridgeFold w src L dst rest (some (legBase w src dst g, g))
          else bridgeFold w src L dst rest (some (bb, bi))) =
          bridgeFold w src L dst rest
            (if legBase w src dst g + 1 / 1000000 < bb then
              some (legBase w src dst g, g) else some (bb, bi))
        by_cases hlt : legBase w src dst g + 1 / 1000000 < bb
        · rw [if_pos hlt, if_pos hlt]
        · rw [if_neg hlt, if_neg hlt]

theorem bridgeFold_some (w : World) (src : ℕ) (L : ℝ) (dst : ℕ) :
    ∀ (l : List ℕ) (best : Option (ℝ × ℕ)) (b : ℝ) (g : ℕ),
      bridgeFold w src L dst l best = some (b, g) →
      best = some (b, g) ∨
        (g ∈ l ∧ Survives w src dst L g ∧ b = legBase w src dst g) := by
  intro l
  induction l with
  | nil => intro best b g h; exact Or.inl h
  | cons x rest ih =>
    intro best b g h
    rw [bridgeFold_cons] at h
    rcases ih _ _ _ h with h2 | ⟨hm, hs, hb⟩
    · by_cases hsx : Survives w src dst L x
      · cases best with
        | none =>
          rw [scanUpdate_none w src L dst x hsx] at h2
          obtain ⟨hb, hg⟩ : legBase w src dst x = b ∧ x = g := by
            simpa using h2
          exact Or.inr ⟨hg ▸ List.mem_cons_self x rest, hg ▸ hsx, hg ▸ hb.symm⟩
        | some p =>
          obtain ⟨bb, bi⟩ := p
          rw [scanUpdate_some w src L dst x bb bi hsx] at h2
          by_cases hlt : legBase w src dst x + 1 / 1000000 < bb
          · rw [if_pos hlt] at h2
            obtain ⟨hb, hg⟩ : legBase w src dst x = b ∧ x = g := by
              simpa using h2
            exact Or.inr ⟨hg ▸ List.mem_cons_self x rest, hg ▸ hsx, hg ▸ hb.symm⟩
          · rw [if_neg hlt] at h2
            exact Or.inl h2
      · rw [scanUpdate_skip w src L dst x best hsx] at h2
        exact Or.inl h2
    · exact Or.inr ⟨List.mem_cons_of_mem x hm, hs, hb⟩

theorem bridgeFold_le (w : World) (src : ℕ) (L : ℝ) (dst : ℕ) :
    ∀ (l : List ℕ) (b0 : ℝ) (g0 : ℕ) (b : ℝ) (g : ℕ),
      bridgeFold w src L dst l (some (b0, g0)) = some (b, g) → b ≤ b0 := by
  intro l
  induction l with
  | nil =>
    intro b0 g0 b g h
    obtain ⟨h1, _⟩ : b0 = b ∧ g0 = g := by simpa [bridgeFold] using h
    exact le_of_eq h1.symm
  | cons x rest ih =>
    intro b0 g0 b g h
    rw [bridgeFold_cons] at h
    by_cases hsx : Survives w src dst L x
    · rw [scanUpdate_some w src L dst x b0 g0 hsx] at h
      by_cases hlt : legBase w src dst x + 1 / 1000000 < b0
      · rw [if_pos hlt] at h
        have := ih _ _ _ _ h
        nlinarith
      · rw [if_neg hlt] at h
        exact ih _ _ _ _ h
    · rw [scanUpdate_skip w src L dst x _ hsx] at h
      exact ih _ _ _ _ h

theorem bridgeFold_min (w : World) (src : ℕ) (L : ℝ) (dst : ℕ) :
    ∀ (l : List ℕ) (best : Option (ℝ × ℕ)) (b : ℝ) (g : ℕ),
      bridgeFold w src L dst l best = some (b, g) →
      ∀ g2 ∈ l, Survives w src dst L g2 →
        b ≤ legBase w src dst g2 + 1 / 1000000 := by
  intro l
  induction l with
  | nil => intro best b g _ g2 hm; exact absurd hm (List.not_mem_nil g2)
  | cons x rest ih =>
    intro best b g h g2 hm hs2
    rw [bridgeFold_cons] at h
    rcases List.mem_cons.mp hm with rfl | hm2
    · cases best with
      | none =>
        rw [scanUpdate_none w src L dst g2 hs2] at h
        have := bridgeFold_le w src L dst rest _ _ _ _ h
        linarith
      | some p =>
        obtain ⟨bb, bi⟩ := p
        rw [scanUpdate_some w src L dst g2 bb bi hs2] at h
        by_cases hlt : legBase w src dst g2 + 1 / 1000000 < bb
        · rw [if_pos hlt] at h
          have := bridgeFold_le w src L dst rest _ _ _ _ h
          linarith
        · rw [if_neg hlt] at h
          have := bridgeFold_le w src L dst rest _ _ _ _ h
          linarith [not_lt.mp hlt]
    · exact ih _ _ _ h g2 hm2 hs2

theorem kd_within_mem {w : World} {kind : StarKind} {center : Point} {r2 : ℝ}
    {i : ℕ} :
    i ∈ kd_within w kind center r2 ↔
      i < w.n ∧ w.kinds i = kind ∧ sq_dist (w.coords i) center ≤ r2 := by
  unfold kd_within
  rw [(List.perm_insertionSort _ _).mem_iff]
  simp only [List.mem_filter, List.mem_range, decide_eq_true_eq]

theorem mem_bridgeSurvivors {w : World} {src dst : ℕ} {L : ℝ} {g : ℕ} :
    g ∈ bridgeSurvivors w src dst L ↔
      g ∈ kd_within w .General (w.coords dst) (L ^ 2) ∧ Survives w src dst L g := by
  unfold bridgeSurvivors
  simp only [List.mem_filter, decide_eq_true_eq]

theorem find_bridge_eq {w : World} {src dst : ℕ} {L : ℝ} {g : ℕ} {b : ℝ}
    (h : find_bridge_general w src dst L = some (g, b)) :
    bridgeFold w src L dst (kd_within w .General (w.coords dst) (L ^ 2)) none =
      some (b, g) := by
  unfold find_bridge_general at h
  cases hf : bridgeFold w src L dst (kd_within w .General (w.coords dst) (L ^ 2)) none with
  | none => rw [hf] at h; exact absurd h (by simp)
  | some p =>
    obtain ⟨b2, g2⟩ := p
    rw [hf] at h
    obtain ⟨hg, hb⟩ : g2 = g ∧ b2 = b := by simpa using h
    rw [hg, hb]

/-- C1: every bridge accepted by the bridge finder with source `src`,
destination `dst` and base limit `L` (nonnegative, per the spec's
positive-base-limit precondition on the router inputs), returning general
star `g` with leg-base value `b`, satisfies
`distance(src,g) ≤ L * BOOST`, `distance(g,dst) ≤ L`, and
`b = leg_base = max(distance(src,g)/BOOST, distance(g,dst)) ≤ L + 1e-6`,
with `BOOST = 6`. -/
theorem bridge_feasibility {w : World} {src dst g : ℕ} {L b : ℝ}
    (hL : 0 ≤ L) (h : find_bridge_general w src dst L = some (g, b)) :
    distP (w.coords src) (w.coords g) ≤ L * GENERAL_BOOST ∧
    distP (w.coords g) (w.coords dst) ≤ L ∧
    b = legBase w src dst g ∧ b ≤ L + 1 / 1000000 := by
  have hf := find_bridge_eq h
  rcases bridgeFold_some w src L dst _ _ _ _ hf with h0 | ⟨hm, hs, hb⟩
  · exact absurd h0 (by simp)
  · have hq := kd_within_mem.mp hm
    refine ⟨?_, ?_, hb, hb ▸ hs.2⟩
    · have h6 : (0 : ℝ) ≤ L * GENERAL_BOOST := by
        unfold GENERAL_BOOST
        nlinarith
      calc distP (w.coords src) (w.coords g)
          = Real.sqrt (sq_dist (w.coords src) (w.coords g)) := rfl
        _ ≤ Real.sqrt ((L * GENERAL_BOOST) ^ 2) := Real.sqrt_le_sqrt hs.1
        _ = L * GENERAL_BOOST := Real.sqrt_sq h6
    · calc distP (w.coords g) (w.coords dst)
          = Real.sqrt (sq_dist (w.coords g) (w.coords dst)) := rfl
        _ ≤ Real.sqrt (L ^ 2) := Real.sqrt_le_sqrt hq.2.2
        _ = L := Real.sqrt_sq hL

/-- C3 amended: the returned bridge is a surviving candidate, the returned
value is its leg base, and its leg base is within the 1e-6 replacement
tolerance of every surviving candidate's leg base (so within 1e-6 of the
minimum; the scan replaces the incumbent only when more than 1e-6 better,
keeping the earlier-encountered candidate otherwise). -/
theorem bridge_choice_near_minimal {w : World} {src dst : ℕ} {L : ℝ} {g : ℕ}
    {b : ℝ} (h : find_bridge_general w src dst L = some (g, b)) :
    g ∈ bridgeSurvivors w src dst L ∧ b = legBase w src dst g ∧
    ∀ g2 ∈ bridgeSurvivors w src dst L, b ≤ legBase w src dst g2 + 1 / 1000000 := by
  have hf := find_bridge_eq h
  rcases bridgeFold_some w src L dst _ _ _ _ hf with h0 | ⟨hm, hs, hb⟩
  · exact absurd h0 (by simp)
  · refine ⟨mem_bridgeSurvivors.mpr ⟨hm, hs⟩, hb, ?_⟩
    intro g2 hg2
    have hg2' := mem_bridgeSurvivors.mp hg2
    exact bridgeFold_min w src L dst _ _ _ _ hf g2 hg2'.1 hg2'.2

/-! ## Concrete worlds for witnesses and counterexamples -/

noncomputable section WitnessWorlds
open Classical

/-- Three collinear entities on the x axis: a neutron source at 0, a
general star at 3, a neutron destination at 6. -/
def W1 : World :=
  ⟨3,
   fun i => if i = 0 then ((0 : ℝ), (0 : ℝ), (0 : ℝ))
     else if i = 1 then (3, 0, 0) else (6, 0, 0),
   fun i => if i = 1 then .General else .Neutron⟩

/-- Four collinear entities on the x axis: a neutron source at
27 + 3e-6, a neutron destination at 0, and two general stars at 3 and 4.
The general star at 3 is scanned first (closer to the destination) and has
leg base 4 + 5e-7; the one at 4 has leg base exactly 4, smaller, but not by
more than 1e-6, so the scan keeps the first. -/
def W3 : World :=
  ⟨4,
   fun i => if i = 0 then ((27 + 3 / 1000000 : ℝ), (0 : ℝ), (0 : ℝ))
     else if i = 1 then (0, 0, 0)
     else if i = 2 then (3, 0, 0) else (4, 0, 0),
   fun i => if i = 2 ∨ i = 3 then .General else .Neutron⟩

end WitnessWorlds

theorem distP_axis_le {a c : ℝ} (h : a ≤ c) :
    distP (a, 0, 0) (c, 0, 0) = c - a := by
  unfold distP
  rw [show sq_dist ((a : ℝ), (0 : ℝ), (0 : ℝ)) ((c : ℝ), (0 : ℝ), (0 : ℝ)) =
    (c - a) ^ 2 by unfold sq_dist; ring]
  exact Real.sqrt_sq (by linarith)

theorem distP_axis_ge {a c : ℝ} (h : a ≤ c) :
    distP (c, 0, 0) (a, 0, 0) = c - a := by
  unfold distP
  rw [show sq_dist ((c : ℝ), (0 : ℝ), (0 : ℝ)) ((a : ℝ), (0 : ℝ), (0 : ℝ)) =
    (c - a) ^ 2 by unfold sq_dist; ring]
  exact Real.sqrt_sq (by linarith)

theorem kd_W1 : kd_within W1 .General (W1.coords 2) ((4 : ℝ) ^ 2) = [1] := by
  unfold kd_within
  rw [show List.range W1.n = [0, 1, 2] from rfl]
  rw [List.filter_cons, List.filter_cons, List.filter_cons, List.filter_nil]
  rw [show (decide (W1.kinds 0 = StarKind.General ∧
      sq_dist (W1.coords 0) (W1.coords 2) ≤ (4 : ℝ) ^ 2)) = false by
    rw [decide_eq_false_iff_not]
    rintro ⟨hk, -⟩
    exact absurd hk (by simp [W1])]
  rw [show (decide (W1.kinds 1 = StarKind.General ∧
      sq_dist (W1.coords 1) (W1.coords 2) ≤ (4 : ℝ) ^ 2)) = true by
    rw [decide_eq_true_eq]
    exact ⟨by simp [W1], by norm_num [W1, sq_dist]⟩]
  rw [show (decide (W1.kinds 2 = StarKind.General ∧
      sq_dist (W1.coords 2) (W1.coords 2) ≤ (4 : ℝ) ^ 2)) = false by
    rw [decide_eq_false_iff_not]
    rintro ⟨hk, -⟩
    exact absurd hk (by simp [W1])]
  simp [List.insertionSort, List.orderedInsert]

theorem legBase_W1 : legBase W1 0 2 1 = 3 := by
  unfold legBase
  rw [show W1.coords 0 = ((0 : ℝ), (0 : ℝ), (0 : ℝ)) from rfl,
      show W1.coords 1 = ((3 : ℝ), (0 : ℝ), (0 : ℝ)) from rfl,
      show W1.coords 2 = ((6 : ℝ), (0 : ℝ), (0 : ℝ)) from rfl]
  rw [distP_axis_le (by norm_num : (0 : ℝ) ≤ 3),
      distP_axis_le (by norm_num : (3 : ℝ) ≤ 6)]
  unfold GENERAL_BOOST
  rw [max_eq_right (by norm_num : (3 - 0) / 6 ≤ (6 : ℝ) - 3)]
  norm_num

theorem survives_W1 : Survives W1 0 2 4 1 := by
  constructor
  · show sq_dist (W1.coords 0) (W1.coords 1) ≤ ((4 : ℝ) * GENERAL_BOOST) ^ 2
    norm_num [W1, sq_dist, GENERAL_BOOST]
  · rw [legBase_W1]
    norm_num

theorem find_bridge_W1 : find_bridge_general W1 0 2 4 = some (1, 3) := by
  unfold find_bridge_general
  rw [kd_W1, bridgeFold_cons, scanUpdate_none W1 0 4 2 1 survives_W1, legBase_W1]
  rfl

theorem bridge_feasibility_witness :
    distP (W1.coords 0) (W1.coords 1) ≤ 4 * GENERAL_BOOST ∧
    distP (W1.coords 1) (W1.coords 2) ≤ 4 ∧
    (3 : ℝ) = legBase W1 0 2 1 ∧ (3 : ℝ) ≤ 4 + 1 / 1000000 :=
  bridge_feasibility (by norm_num) find_bridge_W1

theorem bridge_choice_near_minimal_witness :
    (1 : ℕ) ∈ bridgeSurvivors W1 0 2 4 ∧ (3 : ℝ) = legBase W1 0 2 1 ∧
    ∀ g2 ∈ bridgeSurvivors W1 0 2 4, (3 : ℝ) ≤ legBase W1 0 2 g2 + 1 / 1000000 :=
  bridge_choice_near_minimal find_bridge_W1

theorem kd_W3 : kd_within W3 .General (W3.coords 1) ((5 : ℝ) ^ 2) = [2, 3] := by
  unfold kd_within
  rw [show List.range W3.n = [0, 1, 2, 3] from rfl]
  rw [List.filter_cons, List.filter_cons, List.filter_cons, List.filter_cons,
    List.filter_nil]
  rw [show (decide (W3.kinds 0 = StarKind.General ∧
      sq_dist (W3.coords 0) (W3.coords 1) ≤ (5 : ℝ) ^ 2)) = false by
    rw [decide_eq_false_iff_not]
    rintro ⟨hk, -⟩
    exact absurd hk (by simp [W3])]
  rw [show (decide (W3.kinds 1 = StarKind.General ∧
      sq_dist (W3.coords 1) (W3.coords 1) ≤ (5 : ℝ) ^ 2)) = false by
    rw [decide_eq_false_iff_not]
    rintro ⟨hk, -⟩
    exact absurd hk (by simp [W3])]
  rw [show (decide (W3.kinds 2 = StarKind.General ∧
      sq_dist (W3.coords 2) (W3.coords 1) ≤ (5 : ℝ) ^ 2)) = true by
    rw [decide_eq_true_eq]
    exact ⟨by simp [W3], by norm_num [W3, sq_dist]⟩]
  rw [show (decide (W3.kinds 3 = StarKind.General ∧
      sq_dist (W3.coords 3) (W3.coords 1) ≤ (5 : ℝ) ^ 2)) = true by
    rw [decide_eq_true_eq]
    exact ⟨by simp [W3], by norm_num [W3, sq_dist]⟩]
  norm_num [List.insertionSort, List.orderedInsert, W3, sq_dist]

theorem legBase_W3_2 : legBase W3 0 1 2 = 4 + 1 / 2000000 := by
  unfold legBase
  rw [show W3.coords 0 = ((27 + 3 / 1000000 : ℝ), (0 : ℝ), (0 : ℝ)) from rfl,
      show W3.coords 1 = ((0 : ℝ), (0 : ℝ), (0 : ℝ)) from rfl,
      show W3.coords 2 = ((3 : ℝ), (0 : ℝ), (0 : ℝ)) from rfl]
  rw [distP_axis_ge (by norm_num : (3 : ℝ) ≤ 27 + 3 / 1000000),
      distP_axis_ge (by norm_num : (0 : ℝ) ≤ 3)]
  unfold GENERAL_BOOST
  rw [max_eq_left (by norm_num : (3 : ℝ) - 0 ≤ (27 + 3 / 1000000 - 3) / 6)]
  norm_num

theorem legBase_W3_3 : legBase W3 0 1 3 = 4 := by
  unfold legBase
  rw [show W3.coords 0 = ((27 + 3 / 1000000 : ℝ), (0 : ℝ), (0 : ℝ)) from rfl,
      show W3.coords 1 = ((0 : ℝ), (0 : ℝ), (0 : ℝ)) from rfl,
      show W3.coords 3 = ((4 : ℝ), (0 : ℝ), (0 : ℝ)) from rfl]
  rw [distP_axis_ge (by norm_num : (4 : ℝ) ≤ 27 + 3 / 1000000),
      distP_axis_ge (by norm_num : (0 : ℝ) ≤ 4)]
  unfold GENERAL_BOOST
  rw [max_eq_right (by norm_num : (27 + 3 / 1000000 - 4) / 6 ≤ (4 : ℝ) - 0)]
  norm_num

theorem survives_W3_2 : Survives W3 0 1 5 2 := by
  constructor
  · show sq_dist (W3.coords 0) (W3.coords 2) ≤ ((5 : ℝ) * GENERAL_BOOST) ^ 2
    norm_num [W3, sq_dist, GENERAL_BOOST]
  · rw [legBase_W3_2]
    norm_num

theorem survives_W3_3 : Survives W3 0 1 5 3 := by
  constructor
  · show sq_dist (W3.coords 0) (W3.coords 3) ≤ ((5 : ℝ) * GENERAL_BOOST) ^ 2
    norm_num [W3, sq_dist, GENERAL_BOOST]
  · rw [legBase_W3_3]
    norm_num

theorem find_bridge_W3 : find_bridge_general W3 0 1 5 = some (2, 4 + 1 / 2000000) := by
  unfold find_bridge_general
  rw [kd_W3, bridgeFold_cons, scanUpdate_none W3 0 5 1 2 survives_W3_2, legBase_W3_2,
    bridgeFold_cons, scanUpdate_some W3 0 5 1 3 (4 + 1 / 2000000) 2 survives_W3_3,
    legBase_W3_3,
    if_neg (by norm_num : ¬((4 : ℝ) + 1 / 1000000 < 4 + 1 / 2000000))]
  rfl

/-- C3 counterexample: at this concrete input the bridge finder returns
general star 2, although surviving candidate 3 has a strictly smaller leg
base (by less than the 1e-6 replacement tolerance), so the returned bridge
is not the survivor of smallest leg base and no exact tie is involved. -/
theorem smallest_legBase_counterexample :
    find_bridge_general W3 0 1 5 = some (2, 4 + 1 / 2000000) ∧
    (3 : ℕ) ∈ bridgeSurvivors W3 0 1 5 ∧
    legBase W3 0 1 3 < 4 + 1 / 2000000 := by
  refine ⟨find_bridge_W3, ?_, ?_⟩
  · exact mem_bridgeSurvivors.mpr ⟨by rw [kd_W3]; simp, survives_W3_3⟩
  · rw [legBase_W3_3]
    norm_num

/-! ## Router loop lemmas -/

theorem tryCandidates_spec (w : World) (cur : ℕ) (L : ℝ) :
    ∀ (l : List ℕ) (cand g : ℕ) (leg : ℝ),
      tryCandidates w cur L l = some (cand, g, leg) →
      cand ∈ l ∧ find_bridge_general w cur cand L = some (g, leg) := by
  intro l
  induction l with
  | nil => intro cand g leg h; exact absurd h (by simp [tryCandidates])
  | cons x rest ih =>
    intro cand g leg h
    rw [show tryCandidates w cur L (x :: rest) =
      (match find_bridge_general w cur x L with
       | some (g2, leg2) => some (x, g2, leg2)
       | none => tryCandidates w cur L rest) from rfl] at h
    cases hf : find_bridge_general w cur x L with
    | some p =>
      obtain ⟨g2, leg2⟩ := p
      rw [hf] at h
      obtain ⟨h1, h2, h3⟩ : x = cand ∧ g2 = g ∧ leg2 = leg := by simpa using h
      subst h1; subst h2; subst h3
      exact ⟨List.mem_cons_self _ _, hf⟩
    | none =>
      rw [hf] at h
      exact ⟨List.mem_cons_of_mem _ (ih _ _ _ h).1, (ih _ _ _ h).2⟩

theorem mem_candidateList {w : World} {goal cur : ℕ} {L : ℝ} {i : ℕ} :
    i ∈ candidateList w goal cur L ↔
      i < w.n ∧ w.kinds i = .Neutron ∧
      sq_dist (w.coords i) (w.coords cur) ≤ (L * (GENERAL_BOOST + 1)) ^ 2 ∧
      i ≠ cur ∧ goalDist w goal i + 1 / 1000 < goalDist w goal cur := by
  unfold candidateList
  rw [(List.perm_insertionSort _ _).mem_iff]
  simp only [List.mem_filter, decide_eq_true_eq, kd_within_mem]
  tauto

theorem routeStep_done {w : World} {goal : ℕ} {s : RouteState} (h : s.current = goal) :
    routeStep w goal s =
      .done ⟨s.generals, s.requiredBase, 2 * s.steps, s.legs, s.trace⟩ := by
  unfold routeStep
  rw [if_pos h]

theorem routeStep_move {w : World} {goal : ℕ} {s : RouteState} {cand g : ℕ} {leg : ℝ}
    (hne : s.current ≠ goal)
    (htc : tryCandidates w s.current s.limit (candidateList w goal s.current s.limit) =
      some (cand, g, leg)) :
    routeStep w goal s = .cont
      { current := cand, generals := s.generals ++ [g],
        requiredBase := max s.requiredBase leg, limit := s.limit,
        steps := s.steps + 1, noProgress := 0,
        legs := s.legs ++ [leg], trace := s.trace ++ [cand] } := by
  unfold routeStep
  rw [if_neg hne, htc]

theorem routeStep_stall {w : World} {goal : ℕ} {s : RouteState}
    (hne : s.current ≠ goal)
    (htc : tryCandidates w s.current s.limit (candidateList w goal s.current s.limit) = none)
    (hlim : ¬ s.limit + 1 > 1000) :
    routeStep w goal s =
      .cont { s with limit := s.limit + 1, noProgress := s.noProgress + 1 } := by
  unfold routeStep
  rw [if_neg hne, htc]
  show (if s.limit + 1 > 1000 then StepOut.fail else _) = _
  rw [if_neg hlim]

theorem routeStep_abort {w : World} {goal : ℕ} {s : RouteState}
    (hne : s.current ≠ goal)
    (htc : tryCandidates w s.current s.limit (candidateList w goal s.current s.limit) = none)
    (hlim : s.limit + 1 > 1000) :
    routeStep w goal s = .fail := by
  unfold routeStep
  rw [if_neg hne, htc]
  show (if s.limit + 1 > 1000 then StepOut.fail else _) = _
  rw [if_pos hlim]

theorem routeStep_cont_cases {w : World} {goal : ℕ} {s s2 : RouteState}
    (h : routeStep w goal s = .cont s2) :
    (∃ cand g leg,
      tryCandidates w s.current s.limit (candidateList w goal s.current s.limit) =
        some (cand, g, leg) ∧
      s2 = { current := cand, generals := s.generals ++ [g],
             requiredBase := max s.requiredBase leg, limit := s.limit,
             steps := s.steps + 1, noProgress := 0,
             legs := s.legs ++ [leg], trace := s.trace ++ [cand] } ∧
      s.current ≠ goal) ∨
    (tryCandidates w s.current s.limit (candidateList w goal s.current s.limit) = none ∧
      s.limit + 1 ≤ 1000 ∧
      s2 = { s with limit := s.limit + 1, noProgress := s.noProgress + 1 } ∧
      s.current ≠ goal) := by
  by_cases hcur : s.current = goal
  · rw [routeStep_done hcur] at h
    exact absurd h (by simp)
  · cases htc : tryCandidates w s.current s.limit
        (candidateList w goal s.current s.limit) with
    | some p =>
      obtain ⟨cand, g, leg⟩ := p
      rw [routeStep_move hcur htc] at h
      left
      refine ⟨cand, g, leg, rfl, ?_, hcur⟩
      injection h with h2
      exact h2.symm
    | none =>
      by_cases hlim : s.limit + 1 > 1000
      · rw [routeStep_abort hcur htc hlim] at h
        exact absurd h (by simp)
      · rw [routeStep_stall hcur htc hlim] at h
        right
        refine ⟨rfl, by linarith [not_lt.mp hlim], ?_, hcur⟩
        injection h with h2
        exact h2.symm

theorem routeStep_done_cases {w : World} {goal : ℕ} {s : RouteState} {r : RouteResult}
    (h : routeStep w goal s = .done r) :
    s.current = goal ∧
    r = ⟨s.generals, s.requiredBase, 2 * s.steps, s.legs, s.trace⟩ := by
  by_cases hcur : s.current = goal
  · rw [routeStep_done hcur] at h
    injection h with h2
    exact ⟨hcur, h2.symm⟩
  · cases htc : tryCandidates w s.current s.limit
        (candidateList w goal s.current s.limit) with
    | some p =>
      obtain ⟨cand, g, leg⟩ := p
      rw [routeStep_move hcur htc] at h
      exact absurd h (by simp)
    | none =>
      by_cases hlim : s.limit + 1 > 1000
      · rw [routeStep_abort hcur htc hlim] at h
        exact absurd h (by simp)
      · rw [routeStep_stall hcur htc hlim] at h
        exact absurd h (by simp)

/-! ## Termination -/

theorem stallsLeft_decrease {s : RouteState} (h : s.limit + 1 ≤ 1000) :
    stallsLeft { s with limit := s.limit + 1, noProgress := s.noProgress + 1 } <
      stallsLeft s := by
  unfold stallsLeft
  have h0 : (0 : ℝ) ≤ 1000 - s.limit := by linarith
  have h1 : (1001 : ℝ) - s.limit = (1000 - s.limit) + 1 := by ring
  have h2 : (1001 : ℝ) -
      ({ s with limit := s.limit + 1, noProgress := s.noProgress + 1 } : RouteState).limit =
      1000 - s.limit := by
    show (1001 : ℝ) - (s.limit + 1) = _
    ring
  rw [h2, h1, Nat.ceil_add_one h0]
  omega

theorem movesLeft_decrease (w : World) (goal : ℕ) (s s2 : RouteState)
    (hn : s2.current < w.n)
    (hlt : goalDist w goal s2.current < goalDist w goal s.current) :
    movesLeft w goal s2 < movesLeft w goal s := by
  unfold movesLeft
  apply Finset.card_lt_card
  rw [Finset.ssubset_def]
  constructor
  · intro i hi
    rw [Finset.mem_filter] at hi ⊢
    exact ⟨hi.1, lt_trans hi.2 hlt⟩
  · intro hsub
    have h2 : s2.current ∈ (Finset.range w.n).filter
        (fun i => goalDist w goal i < goalDist w goal s.current) :=
      Finset.mem_filter.mpr ⟨Finset.mem_range.mpr hn, hlt⟩
    have h3 := hsub h2
    rw [Finset.mem_filter] at h3
    exact lt_irrefl _ h3.2

theorem routeMeasure_decrease {w : World} {goal : ℕ} {s s2 : RouteState}
    (h : routeStep w goal s = .cont s2) :
    routeMeasure w goal s2 < routeMeasure w goal s := by
  rcases routeStep_cont_cases h with ⟨cand, g, leg, htc, hs2, hne⟩ | ⟨htc, hlim, hs2, hne⟩
  · have hspec := tryCandidates_spec w s.current s.limit _ _ _ _ htc
    have hmem := mem_candidateList.mp hspec.1
    have hn : cand < w.n := hmem.1
    have hlt : goalDist w goal cand < goalDist w goal s.current := by
      have := hmem.2.2.2.2
      linarith
    unfold routeMeasure
    have hmoves : movesLeft w goal s2 < movesLeft w goal s := by
      apply movesLeft_decrease
      · rw [hs2]
        exact hn
      · rw [hs2]
        exact hlt
    have hstall : stallsLeft s2 = stallsLeft s := by
      rw [hs2]
      rfl
    omega
  · unfold routeMeasure
    have hmoves : movesLeft w goal s2 = movesLeft w goal s := by
      rw [hs2]
      rfl
    have hstall : stallsLeft s2 < stallsLeft s := by
      rw [hs2]
      exact stallsLeft_decrease hlim
    omega

theorem routeLoop_total (w : World) (goal : ℕ) :
    ∀ (fuel : ℕ) (s : RouteState), routeMeasure w goal s < fuel →
      ∃ ro, routeLoop w goal fuel s = some ro := by
  intro fuel
  induction fuel with
  | zero => intro s h; omega
  | succ n ih =>
    intro s h
    rw [show routeLoop w goal (n + 1) s =
      (match routeStep w goal s with
       | .done r => some (some r)
       | .fail => some none
       | .cont s2 => routeLoop w goal n s2) from rfl]
    cases hstep : routeStep w goal s with
    | done r => exact ⟨some r, rfl⟩
    | fail => exact ⟨none, rfl⟩
    | cont s2 =>
      have hd := routeMeasure_decrease hstep
      exact ih s2 (by omega)

theorem greedy_eq_some {w : World} {start goal : ℕ} {L : ℝ} {r : RouteResult}
    (h : greedy_fast_route w start goal L = some r) :
    routeLoop w goal (routeMeasure w goal (initState start L) + 1) (initState start L) =
      some (some r) := by
  unfold greedy_fast_route at h
  exact Option.join_eq_some.mp h

/-! ## Loop invariants -/

/-- The monotonic-progress relation between consecutive committed
positions: the later one is closer to the goal by more than 1e-3. -/
def ProgressRel (w : World) (goal : ℕ) (a b : ℕ) : Prop :=
  goalDist w goal b + 1 / 1000 < goalDist w goal a

/-- Loop invariant tying the state's accumulators together. -/
def StateInv (w : World) (goal start : ℕ) (s : RouteState) : Prop :=
  s.steps = s.generals.length ∧
  s.legs.length = s.generals.length ∧
  s.requiredBase = s.legs.foldl max 0 ∧
  (∀ l ∈ s.legs, 0 ≤ l) ∧
  s.trace.length = s.generals.length + 1 ∧
  s.trace.head? = some start ∧
  s.trace.getLast? = some s.current ∧
  List.Chain' (ProgressRel w goal) s.trace

theorem legBase_nonneg (w : World) (src dst g : ℕ) : 0 ≤ legBase w src dst g :=
  le_max_of_le_right (Real.sqrt_nonneg _)

theorem initState_inv (w : World) (goal start : ℕ) (L : ℝ) :
    StateInv w goal start (initState start L) := by
  refine ⟨rfl, rfl, rfl, ?_, rfl, rfl, rfl, ?_⟩
  · intro l hl
    simp [initState] at hl
  · simp [initState]

theorem stateInv_preserved {w : World} {goal start : ℕ} {s s2 : RouteState}
    (hinv : StateInv w goal start s) (h : routeStep w goal s = .cont s2) :
    StateInv w goal start s2 := by
  obtain ⟨h1, h2, h3, h4, h5, h6, h7, h8⟩ := hinv
  rcases routeStep_cont_cases h with ⟨cand, g, leg, htc, hs2, hne⟩ | ⟨htc, hlim, hs2, hne⟩
  · subst hs2
    have hspec := tryCandidates_spec w s.current s.limit _ _ _ _ htc
    have hmem := mem_candidateList.mp hspec.1
    have hfe := find_bridge_eq hspec.2
    rcases bridgeFold_some w s.current s.limit cand _ _ _ _ hfe with h0 | ⟨-, -, hb⟩
    · exact absurd h0 (by simp)
    refine ⟨?_, ?_, ?_, ?_, ?_, ?_, ?_, ?_⟩
    · show s.steps + 1 = (s.generals ++ [g]).length
      simp [h1]
    · show (s.legs ++ [leg]).length = (s.generals ++ [g]).length
      simp [h2]
    · show max s.requiredBase leg = (s.legs ++ [leg]).foldl max 0
      rw [List.foldl_append, ← h3]
      rfl
    · intro l hl
      rcases List.mem_append.mp hl with hl2 | hl2
      · exact h4 l hl2
      · rw [List.mem_singleton] at hl2
        subst hl2
        rw [hb]
        exact legBase_nonneg _ _ _ _
    · show (s.trace ++ [cand]).length = (s.generals ++ [g]).length + 1
      simp [h5]
    · show (s.trace ++ [cand]).head? = some start
      cases ht : s.trace with
      | nil => rw [ht] at h6; simp at h6
      | cons a t =>
        rw [ht] at h6
        simp only [List.head?_cons, Option.some.injEq] at h6
        subst h6
        rfl
    · exact List.getLast?_concat _
    · show List.Chain' (ProgressRel w goal) (s.trace ++ [cand])
      rw [List.chain'_append]
      refine ⟨h8, List.chain'_singleton _, ?_⟩
      intro x hx y hy
      rw [h7] at hx
      simp only [Option.mem_def, Option.some.injEq] at hx
      simp only [List.head?_cons, Option.mem_def, Option.some.injEq] at hy
      subst hx
      subst hy
      show goalDist w goal cand + 1 / 1000 < goalDist w goal s.current
      exact hmem.2.2.2.2
  · subst hs2
    exact ⟨h1, h2, h3, h4, h5, h6, h7, h8⟩

/-- Properties of a successful result, carried out of the loop by the
invariant. -/
def ResultInv (w : World) (goal start : ℕ) (r : RouteResult) : Prop :=
  r.jumps = 2 * r.generals.length ∧
  r.legs.length = r.generals.length ∧
  r.requiredBase = r.legs.foldl max 0 ∧
  (∀ l ∈ r.legs, 0 ≤ l) ∧
  r.trace.length = r.generals.length + 1 ∧
  r.trace.head? = some start ∧
  r.trace.getLast? = some goal ∧
  List.Chain' (ProgressRel w goal) r.trace

theorem routeLoop_result {w : World} {goal start : ℕ} :
    ∀ (fuel : ℕ) (s : RouteState) (r : RouteResult), StateInv w goal start s →
      routeLoop w goal fuel s = some (some r) → ResultInv w goal start r := by
  intro fuel
  induction fuel with
  | zero =>
    intro s r _ h
    exact absurd h (by simp [routeLoop])
  | succ n ih =>
    intro s r hinv h
    rw [show routeLoop w goal (n + 1) s =
      (match routeStep w goal s with
       | .done r2 => some (some r2)
       | .fail => some none
       | .cont s2 => routeLoop w goal n s2) from rfl] at h
    cases hstep : routeStep w goal s with
    | done r2 =>
      rw [hstep] at h
      obtain rfl : r2 = r := by simpa using h
      obtain ⟨hcur, hr⟩ := routeStep_done_cases hstep
      obtain ⟨h1, h2, h3, h4, h5, h6, h7, h8⟩ := hinv
      subst hr
      exact ⟨by show 2 * s.steps = 2 * s.generals.length; rw [h1], h2, h3, h4, h5, h6,
        hcur ▸ h7, h8⟩
    | fail =>
      rw [hstep] at h
      exact absurd h (by simp)
    | cont s2 =>
      rw [hstep] at h
      exact ih s2 r (stateInv_preserved hinv hstep) h

theorem greedy_result {w : World} {start goal : ℕ} {L : ℝ} {r : RouteResult}
    (h : greedy_fast_route w start goal L = some r) : ResultInv w goal start r :=
  routeLoop_result _ _ _ (initState_inv w goal start L) (greedy_eq_some h)

theorem foldl_max_init_le : ∀ (l : List ℝ) (a : ℝ), a ≤ l.foldl max a := by
  intro l
  induction l with
  | nil => intro a; exact le_refl a
  | cons y t ih =>
    intro a
    calc a ≤ max a y := le_max_left a y
      _ ≤ _ := ih (max a y)

theorem foldl_max_le_mem : ∀ (l : List ℝ) (a x : ℝ), x ∈ l → x ≤ l.foldl max a := by
  intro l
  induction l with
  | nil => intro a x h; exact absurd h (List.not_mem_nil x)
  | cons y t ih =>
    intro a x h
    rcases List.mem_cons.mp h with rfl | h2
    · calc x ≤ max a x := le_max_right a x
        _ ≤ _ := foldl_max_init_le t (max a x)
    · exact ih (max a y) x h2

theorem foldl_max_mem : ∀ (l : List ℝ) (a : ℝ), l.foldl max a = a ∨ l.foldl max a ∈ l := by
  intro l
  induction l with
  | nil => intro a; exact Or.inl rfl
  | cons y t ih =>
    intro a
    rcases ih (max a y) with h | h
    · rcases max_choice a y with h2 | h2
      · left
        rw [List.foldl_cons, h, h2]
      · right
        rw [List.foldl_cons, h, h2]
        exact List.mem_cons_self y t
    · right
      exact List.mem_cons_of_mem y h

/-! ## Router claim theorems -/

/-- C2: in every successful route of the greedy router, the committed
positions (the `trace` ghost field, which starts at the start id and ends
at the goal, one entry per committed hop plus the start) strictly decrease
the distance to goal by more than 1e-3 at every hop. -/
theorem monotonic_progress {w : World} {start goal : ℕ} {L : ℝ} {r : RouteResult}
    (h : greedy_fast_route w start goal L = some r) :
    List.Chain' (ProgressRel w goal) r.trace ∧
    r.trace.head? = some start ∧ r.trace.getLast? = some goal ∧
    r.trace.length = r.generals.length + 1 := by
  obtain ⟨_, _, _, _, h5, h6, h7, h8⟩ := greedy_result h
  exact ⟨h8, h6, h7, h5⟩

/-- C4: for every successful routing call, the reported jump count equals
2 times the number of bridges in the returned route. -/
theorem jump_count {w : World} {start goal : ℕ} {L : ℝ} {r : RouteResult}
    (h : greedy_fast_route w start goal L = some r) :
    r.jumps = 2 * r.generals.length :=
  (greedy_result h).1

/-- C6: for every successful route, the returned `required_base` equals
the maximum `leg_base` over all committed bridges (the `legs` ghost field,
one entry per bridge), and equals 0 when the route has no bridges. -/
theorem required_base_max {w : World} {start goal : ℕ} {L : ℝ} {r : RouteResult}
    (h : greedy_fast_route w start goal L = some r) :
    (∀ l ∈ r.legs, l ≤ r.requiredBase) ∧
    (r.legs = [] → r.requiredBase = 0) ∧
    (r.legs ≠ [] → r.requiredBase ∈ r.legs) ∧
    r.legs.length = r.generals.length := by
  obtain ⟨-, h2, h3, h4, -, -, -, -⟩ := greedy_result h
  refine ⟨?_, ?_, ?_, h2⟩
  · intro l hl
    rw [h3]
    exact foldl_max_le_mem r.legs 0 l hl
  · intro he
    rw [h3, he]
    rfl
  · intro hne
    rcases foldl_max_mem r.legs 0 with h0 | hm
    · cases hl : r.legs with
      | nil => exact absurd hl hne
      | cons y t =>
        have hy : y ∈ r.legs := by rw [hl]; exact List.mem_cons_self y t
        have hy0 : 0 ≤ y := h4 y hy
        have hyle : y ≤ r.legs.foldl max 0 := foldl_max_le_mem r.legs 0 y hy
        rw [h0] at hyle
        have hyr : r.requiredBase = y := by
          rw [h3, h0]
          linarith
        rw [hyr]
        exact List.mem_cons_self y t
    · rw [h3]
      exact hm

/-- C7: if the start id equals the goal id, routing succeeds immediately
with zero bridges, required base 0 and zero jumps; the trace contains only
the start position, so no hop was committed and no search was performed. -/
theorem trivial_route (w : World) (s : ℕ) (L : ℝ) :
    greedy_fast_route w s s L = some ⟨[], 0, 0, [], [s]⟩ := by
  unfold greedy_fast_route
  rw [show routeLoop w s (routeMeasure w s (initState s L) + 1) (initState s L) =
    (match routeStep w s (initState s L) with
     | .done r => some (some r)
     | .fail => some none
     | .cont s2 => routeLoop w s (routeMeasure w s (initState s L)) s2) from rfl]
  rw [routeStep_done (show (initState s L).current = s from rfl)]
  rfl

/-- C5: the greedy router terminates on every input.  First conjunct:
whenever no candidate hop yields a bridge and the raised limit stays within
the ceiling, the working limit increases by exactly 1.0.  Second conjunct:
as soon as the raised limit exceeds 1000.0 the search aborts and reports
failure (no route).  Third conjunct: with the fuel `greedy_fast_route`
uses, the loop always reaches a definite outcome, so the search terminates
on every input, in particular with search exhaustion when no route exists
at any limit within the ceiling. -/
theorem escalation_termination (w : World) (goal : ℕ) :
    (∀ s : RouteState, s.current ≠ goal →
      tryCandidates w s.current s.limit (candidateList w goal s.current s.limit) = none →
      s.limit + 1 ≤ 1000 →
      routeStep w goal s =
        .cont { s with limit := s.limit + 1, noProgress := s.noProgress + 1 }) ∧
    (∀ (s : RouteState) (fuel : ℕ), s.current ≠ goal →
      tryCandidates w s.current s.limit (candidateList w goal s.current s.limit) = none →
      s.limit + 1 > 1000 →
      routeLoop w goal (fuel + 1) s = some none) ∧
    (∀ (start : ℕ) (L : ℝ), ∃ ro : Option RouteResult,
      routeLoop w goal (routeMeasure w goal (initState start L) + 1)
        (initState start L) = some ro) := by
  refine ⟨?_, ?_, ?_⟩
  · intro s hne htc hlim
    exact routeStep_stall hne htc (by linarith)
  · intro s fuel hne htc hlim
    rw [show routeLoop w goal (fuel + 1) s =
      (match routeStep w goal s with
       | .done r => some (some r)
       | .fail => some none
       | .cont s2 => routeLoop w goal fuel s2) from rfl]
    rw [routeStep_abort hne htc hlim]
  · intro start L
    exact routeLoop_total w goal _ _ (by omega)

/-! ## Witnesses for the router claims -/

noncomputable section TrivialWorld
open Classical

/-- The empty world: no entities at all. -/
def W0 : World := ⟨0, fun _ => ((0 : ℝ), (0 : ℝ), (0 : ℝ)), fun _ => .Unknown⟩

end TrivialWorld

theorem greedy_W0 : greedy_fast_route W0 0 0 5 = some ⟨[], 0, 0, [], [0]⟩ := by
  unfold greedy_fast_route
  rw [show routeLoop W0 0 (routeMeasure W0 0 (initState 0 5) + 1) (initState 0 5) =
    (match routeStep W0 0 (initState 0 5) with
     | .done r => some (some r)
     | .fail => some none
     | .cont s2 => routeLoop W0 0 (routeMeasure W0 0 (initState 0 5)) s2) from rfl]
  rw [routeStep_done (show (initState 0 5).current = 0 from rfl)]
  rfl

theorem monotonic_progress_witness :
    List.Chain' (ProgressRel W0 0) [0] ∧
    ([0] : List ℕ).head? = some 0 ∧ ([0] : List ℕ).getLast? = some 0 ∧
    ([0] : List ℕ).length = ([] : List ℕ).length + 1 :=
  monotonic_progress greedy_W0

theorem jump_count_witness : (0 : ℕ) = 2 * ([] : List ℕ).length :=
  jump_count greedy_W0

theorem required_base_max_witness :
    (∀ l ∈ ([] : List ℝ), l ≤ (0 : ℝ)) ∧
    (([] : List ℝ) = [] → (0 : ℝ) = 0) ∧
    (([] : List ℝ) ≠ [] → (0 : ℝ) ∈ ([] : List ℝ)) ∧
    ([] : List ℝ).length = ([] : List ℕ).length :=
  required_base_max greedy_W0

theorem escalation_termination_witness :
    routeStep W0 0 (initState 1 10) = .cont
      { (initState 1 10) with
        limit := (initState 1 10).limit + 1
        noProgress := (initState 1 10).noProgress + 1 } ∧
    routeLoop W0 0 1 (initState 1 1000) = some none ∧
    ∃ ro : Option RouteResult,
      routeLoop W0 0 (routeMeasure W0 0 (initState 2 5) + 1) (initState 2 5) = some ro :=
  ⟨(escalation_termination W0 0).1 (initState 1 10) (by norm_num [initState]) rfl
      (by norm_num [initState]),
   (escalation_termination W0 0).2.1 (initState 1 1000) 0 (by norm_num [initState]) rfl
      (by norm_num [initState]),
   (escalation_termination W0 0).2.2 2 5⟩

end Highwayman
